import Mathlib

/-!
Verification of the dynamic module importer (hnl.dynamicimports.mjs).

The development shallowly embeds the three stateful or pure parts of the
source file that the specification talks about:

* the path resolver `rewritePath` (source lines 36-51), a pure function
  over strings plus ambient configuration (alias table, optional site
  nonce, the location query string and the random UUID produced for the
  debug cache buster);
* the eager load dispatcher and completion tracker inside `dynImports`
  (source lines 66-99), modelled as a fold of settlement events over a
  counter state;
* the lazy load scheduler `watchModules` (source lines 102-135), modelled
  as a fold of viewport-shift ticks and load settlements over the state of
  one deferred group.
-/

namespace DynImports

/-! ## String utilities mirroring the JavaScript primitives used by the source -/

/-- First-occurrence replacement on character lists, mirroring the
JavaScript `String.prototype.replace` with a string pattern: only the first
occurrence is replaced; an absent pattern leaves the string unchanged; an
empty pattern matches at position 0. -/
def replaceFirstL : List Char → List Char → List Char → List Char
  | [], pat, rep => if pat = [] then rep else []
  | c :: cs, pat, rep =>
    if pat.isPrefixOf (c :: cs) then rep ++ (c :: cs).drop pat.length
    else c :: replaceFirstL cs pat rep

/-- String wrapper for `replaceFirstL`. -/
def replaceFirst (s pat rep : String) : String :=
  ⟨replaceFirstL s.data pat.data rep.data⟩

/-- Substring test on character lists, mirroring `String.prototype.includes`. -/
def hasSubstrL (pat : List Char) : List Char → Bool
  | [] => pat.isPrefixOf []
  | c :: cs => pat.isPrefixOf (c :: cs) || hasSubstrL pat cs

/-- String wrapper for `hasSubstrL`. -/
def containsSub (s pat : String) : Bool := hasSubstrL pat.data s.data

/-! ## URLSearchParams serialization

The source collects query parameters in a `URLSearchParams` object and
serializes it with `toString()`, which applies the
application/x-www-form-urlencoded serializer: UTF-8 bytes that are ASCII
alphanumeric or one of `*-._` stand for themselves, a space becomes `+`,
every other byte becomes a percent escape, and pairs are joined by `&`
with `=` between key and value. -/

/-- UTF-8 byte sequence of a character, as natural numbers below 256. -/
def utf8Bytes (c : Char) : List Nat :=
  let n := c.toNat
  if n < 0x80 then [n]
  else if n < 0x800 then [0xC0 + n / 0x40, 0x80 + n % 0x40]
  else if n < 0x10000 then
    [0xE0 + n / 0x1000, 0x80 + n / 0x40 % 0x40, 0x80 + n % 0x40]
  else
    [0xF0 + n / 0x40000, 0x80 + n / 0x1000 % 0x40,
     0x80 + n / 0x40 % 0x40, 0x80 + n % 0x40]

/-- Bytes that the form-urlencoded serializer leaves unescaped. -/
def safeByte (n : Nat) : Bool :=
  (Nat.ble 48 n && Nat.ble n 57) || (Nat.ble 65 n && Nat.ble n 90) ||
  (Nat.ble 97 n && Nat.ble n 122) || n == 42 || n == 45 || n == 46 || n == 95

/-- Uppercase hexadecimal digit. -/
def hexDigit (n : Nat) : Char :=
  if n < 10 then Char.ofNat (48 + n) else Char.ofNat (55 + n)

/-- Serialization of one byte under form-urlencoding. -/
def encodeByte (n : Nat) : List Char :=
  if safeByte n then [Char.ofNat n]
  else if n = 32 then ['+']
  else ['%', hexDigit (n / 16 % 16), hexDigit (n % 16)]

/-- Concatenation of a list of character lists. -/
def concatLists (ls : List (List Char)) : List Char :=
  ls.foldr (fun l acc => l ++ acc) []

/-- Form-urlencoding of a character list. -/
def formEncodeL (cs : List Char) : List Char :=
  concatLists (cs.map (fun c => concatLists ((utf8Bytes c).map encodeByte)))

/-- Joins serialized pairs with the ampersand separator. -/
def joinAmp : List (List Char) → List Char
  | [] => []
  | [l] => l
  | l :: l2 :: ls => l ++ '&' :: joinAmp (l2 :: ls)

/-- Serialization of a parameter list, as `URLSearchParams.toString` does. -/
def paramsToStringL (ps : List (String × String)) : List Char :=
  joinAmp (ps.map (fun kv => formEncodeL kv.1.data ++ '=' :: formEncodeL kv.2.data))

/-! ## The path resolver (source lines 24-51) -/

/-- Ambient configuration read by `rewritePath`: the alias table
`dynImportPaths`, the optional global `SITE_NONCE`, the value of
`window.location.search`, and the UUID that `window.crypto.randomUUID()`
would produce during this call. -/
structure ImportConfig where
  dynImportPaths : List (String × String)
  siteNonce : Option String
  locationSearch : String
  randomUUID : String

/-- Alias table of the source file (lines 25-27). -/
def dynImportPaths : List (String × String) :=
  [("assets", "https://code.hnldesign.nl/js-modules/")]

/-- Characters on which the dot of the regular expression
`^%(.*?)%` cannot match (the lazy group stops at the closing percent and
the dot refuses line terminators). -/
def dotNoMatch (c : Char) : Bool := c = '%' || c = '\n' || c = '\r'

/-- Evaluation of `new RegExp(/^%(.*?)%/gi).exec(uri)` (source line 39) on
the character list of the URI: when the string starts with a percent sign
and another percent sign occurs before any line terminator, returns the
lazily matched group and the full match. -/
def matchAliasL : List Char → Option (List Char × List Char)
  | '%' :: rest =>
    match rest.dropWhile (fun c => !dotNoMatch c) with
    | '%' :: _ =>
      some (rest.takeWhile (fun c => !dotNoMatch c),
            '%' :: (rest.takeWhile (fun c => !dotNoMatch c) ++ ['%']))
    | _ => none
  | _ => none

/-- String wrapper for `matchAliasL`. -/
def matchAlias (uri : String) : Option (String × String) :=
  match matchAliasL uri.data with
  | none => none
  | some (nm, tok) => some (⟨nm⟩, ⟨tok⟩)

/-- The truthiness test `customPath && dynImportPaths[customPath[1]]`
(source line 40): the alias branch is taken when the regular expression
matched and the alias table holds a truthy (non-empty) entry for the
group. Returns the full match together with the registered replacement. -/
def aliasHit (cfg : ImportConfig) (uri : String) : Option (String × String) :=
  match matchAlias uri with
  | none => none
  | some (nm, tok) =>
    match List.lookup nm cfg.dynImportPaths with
    | none => none
    | some p => if p = "" then none else some (tok, p)

/-- The URI part of the result of `rewritePath` (source lines 41 and 44):
on the alias branch the full match plus trailing slash is replaced by the
registered location; otherwise the first occurrence of the relative
step is rebased one directory up. -/
def rewrittenUri (cfg : ImportConfig) (uri : String) : String :=
  match aliasHit cfg uri with
  | some (tok, p) => replaceFirst uri (tok ++ "/") p
  | none => replaceFirst uri "./" "./../"

/-- The debug test of source line 46, where the location search string is
checked for the word debug. -/
def hasDebug (cfg : ImportConfig) : Bool := containsSub cfg.locationSearch "debug"

/-- The query parameters accumulated by `rewritePath` (source lines 37,
43, 47-48): a nonce only on the non-alias branch and only when the global
nonce exists, then the debug pair when the location query requests it. -/
def rewriteParams (cfg : ImportConfig) (uri : String) : List (String × String) :=
  (match aliasHit cfg uri with
   | some _ => []
   | none =>
     match cfg.siteNonce with
     | some n => [("nonce", n)]
     | none => []) ++
  (if hasDebug cfg then [("debug", "true"), ("random", cfg.randomUUID)] else [])

/-- The full path resolver (source line 50): the rewritten URI, a question
mark, and the serialized parameters, appended unconditionally. -/
def rewritePath (cfg : ImportConfig) (uri : String) : String :=
  ⟨(rewrittenUri cfg uri).data ++ '?' :: paramsToStringL (rewriteParams cfg uri)⟩

/-- Configuration with the alias table of the source, a configured nonce,
and no debug flag in the location query. -/
def cfgNonce : ImportConfig :=
  { dynImportPaths := dynImportPaths, siteNonce := some "N",
    locationSearch := "", randomUUID := "" }

/-- Configuration registering the alias `assets` to the example prefix of
the specification, with no nonce and no debug flag. -/
def cfgExample : ImportConfig :=
  { dynImportPaths := [("assets", "https://example.com/modules/")],
    siteNonce := none, locationSearch := "", randomUUID := "" }

/-- Configuration with the alias table of the source, no nonce, and no
debug flag. -/
def cfgPlain : ImportConfig :=
  { dynImportPaths := dynImportPaths, siteNonce := none,
    locationSearch := "", randomUUID := "" }

/-- Configuration with the alias table of the source, a configured nonce,
and the debug flag present in the location query. -/
def cfgNonceDebug : ImportConfig :=
  { dynImportPaths := dynImportPaths, siteNonce := some "secret",
    locationSearch := "?debug", randomUUID := "uuid-1" }

/-! ## The eager load dispatcher and completion tracker (source lines 66-99)

Each issued eager load eventually settles.  The host event loop runs the
handlers of one settlement to completion before the next, so a run is a
fold of settlement events over the shared state.  A settlement carries the
outcome of the load and, when the load succeeded, the shape of the init
export of the loaded namespace. -/

/-- Behaviour of the optional init export of a successfully loaded
module: absent, callable and returning normally, or callable and throwing
synchronously. -/
inductive InitKind
  | noInit
  | initOk
  | initThrows
deriving DecidableEq

/-- Outcome of one asynchronous load once it settles. -/
inductive Settlement
  | success (ik : InitKind)
  | failure
deriving DecidableEq

/-- Shared state of one `dynImports` run: the counter `c` (line 68), the
number of times the completion callback has been invoked (lines 94-96),
the number of init hooks invoked (line 82), and the number of errors
routed to the logger (lines 84 and 89). -/
structure EagerState where
  c : Int
  fires : Nat
  initsRun : Nat
  errorsLogged : Nat
deriving DecidableEq

/-- Handlers run when one eager load settles, in source order: on success
the `then` handler tries the init export (catching a synchronous throw)
and then decrements `c` (line 87); on failure the `catch` handler logs the
error and does not touch `c` (lines 88-89); in both cases the `finally`
handler then fires the completion callback when `c` is zero (lines 90-97). -/
def settleStep (s : EagerState) (ev : Settlement) : EagerState :=
  match ev with
  | .success ik =>
    let s1 :=
      match ik with
      | .noInit => s
      | .initOk => { s with initsRun := s.initsRun + 1 }
      | .initThrows =>
        { s with initsRun := s.initsRun + 1, errorsLogged := s.errorsLogged + 1 }
    let s2 := { s1 with c := s1.c - 1 }
    if s2.c = 0 then { s2 with fires := s2.fires + 1 } else s2
  | .failure =>
    let s1 := { s with errorsLogged := s.errorsLogged + 1 }
    if s1.c = 0 then { s1 with fires := s1.fires + 1 } else s1

/-- One `dynImports` run over its eager requests.  Modelled from the spec:
the scanner `domScanner` is not part of the source under scrutiny; per the
specification it hands the orchestrator the eager and deferred mappings
plus a total count, and the pending counter is initialized to the total
number of eager requests, so `totals` is that number here.  `evs` lists
the settlements of the issued loads in the order the event loop delivers
them. -/
def runEager (totals : Nat) (evs : List Settlement) : EagerState :=
  evs.foldl settleStep { c := (totals : Int), fires := 0, initsRun := 0, errorsLogged := 0 }

/-! ## The lazy load scheduler (source lines 102-135)

One deferred group holds one module key and its elements.  Modelled from
the spec: the collaborators `isVisible` (invoking its callback when the
element is visible) and the `docShift` event bus (dispatching to a handler
while it is subscribed) are not part of the source under scrutiny; a
viewport-shift tick therefore runs the `watchModules` body, which walks
the elements and runs the visibility callback of each visible one.  Loads
issued by a tick settle strictly after the tick, one event at a time. -/

/-- State of one deferred group: whether its key is still in the deferred
registry, whether `watchModules` is still subscribed to `docShift`, how
many loads were issued for the key, how many of them are still in flight,
how many init hooks ran, and how many errors were logged. -/
structure DeferState where
  registryHas : Bool
  listenerOn : Bool
  issued : Nat
  pending : Nat
  initsRun : Nat
  errorsLogged : Nat
deriving DecidableEq

/-- Initial state of a deferred group: key registered, handler subscribed,
nothing issued. -/
def dInit : DeferState :=
  { registryHas := true, listenerOn := true, issued := 0, pending := 0,
    initsRun := 0, errorsLogged := 0 }

/-- Visibility callback of one element (source lines 105-130): when the
element is visible, the guard on the registry decides whether a load is
issued (lines 106-127), and the handler is unsubscribed unconditionally
(line 129).  The registry deletion is not here: it sits in the `then`
handler of the load (line 123) and therefore runs only at settlement. -/
def visStep (s : DeferState) (v : Bool) : DeferState :=
  if v then
    let s1 :=
      if s.registryHas then { s with issued := s.issued + 1, pending := s.pending + 1 }
      else s
    { s1 with listenerOn := false }
  else s

/-- Events that can reach a deferred group: a `docShift` tick carrying the
visibility of each element of the group, or the settlement of one
in-flight load. -/
inductive DEvent
  | tick (vis : List Bool)
  | settle (ev : Settlement)
deriving DecidableEq

/-- One event of a deferred group.  A tick dispatches to `watchModules`
only while it is subscribed, and the body walks every element (lines
104-131).  A settlement of an in-flight load runs the `then` handler on
success, which tries the init export and then deletes the key from the
registry (lines 110-123), or the `catch` handler on failure, which only
logs (lines 124-126). -/
def dstep (s : DeferState) : DEvent → DeferState
  | .tick vis => if s.listenerOn then vis.foldl visStep s else s
  | .settle ev =>
    if s.pending = 0 then s
    else
      match ev with
      | .success ik =>
        let s1 :=
          match ik with
          | .noInit => s
          | .initOk => { s with initsRun := s.initsRun + 1 }
          | .initThrows =>
            { s with initsRun := s.initsRun + 1, errorsLogged := s.errorsLogged + 1 }
        { s1 with pending := s1.pending - 1, registryHas := false }
      | .failure =>
        { s with pending := s.pending - 1, errorsLogged := s.errorsLogged + 1 }

/-- Run of a deferred group from its initial state over a list of events. -/
def drun (es : List DEvent) : DeferState := es.foldl dstep dInit

/-- Number of visible elements reported by a tick. -/
def countVis (vis : List Bool) : Nat := vis.count true

/-- Number of visible elements in the first tick of the trace that has
any visible element. -/
def firstVisCount : List DEvent → Nat
  | [] => 0
  | DEvent.tick vis :: rest =>
    if vis.any (fun b => b) then countVis vis else firstVisCount rest
  | DEvent.settle _ :: rest => firstVisCount rest

/-! ## Helper lemmas on the string primitives -/

theorem strData_append (s t : String) : (s ++ t).data = s.data ++ t.data := rfl

theorem takeWhile_append_all (p : Char → Bool) (l1 l2 : List Char)
    (h : ∀ c ∈ l1, p c = true) :
    (l1 ++ l2).takeWhile p = l1 ++ l2.takeWhile p := by
  induction l1 with
  | nil => simp
  | cons a l ih =>
    have ha : p a = true := h a (List.mem_cons_self a l)
    simp [List.takeWhile_cons, ha, ih (fun c hc => h c (List.mem_cons_of_mem a hc))]

theorem dropWhile_append_all (p : Char → Bool) (l1 l2 : List Char)
    (h : ∀ c ∈ l1, p c = true) :
    (l1 ++ l2).dropWhile p = l2.dropWhile p := by
  induction l1 with
  | nil => simp
  | cons a l ih =>
    simp only [List.cons_append, List.dropWhile_cons, h a (List.mem_cons_self a l)]
    exact ih (fun c hc => h c (List.mem_cons_of_mem a hc))

theorem isPrefixOf_append_self (l1 l2 : List Char) : l1.isPrefixOf (l1 ++ l2) = true := by
  induction l1 with
  | nil => simp [List.isPrefixOf]
  | cons a l ih => simp [List.isPrefixOf, ih]

theorem replaceFirstL_of_prefixPat (pat rest rep : List Char) (h : pat ≠ []) :
    replaceFirstL (pat ++ rest) pat rep = rep ++ rest := by
  match pat, h with
  | a :: pa, _ =>
    show replaceFirstL (a :: (pa ++ rest)) (a :: pa) rep = rep ++ rest
    unfold replaceFirstL
    rw [if_pos]
    · show rep ++ (a :: (pa ++ rest)).drop (a :: pa).length = rep ++ rest
      have hd : (a :: (pa ++ rest)).drop (a :: pa).length = rest := by
        show ((a :: pa) ++ rest).drop (a :: pa).length = rest
        exact List.drop_left (a :: pa) rest
      rw [hd]
    · show (a :: pa).isPrefixOf (a :: (pa ++ rest)) = true
      exact isPrefixOf_append_self (a :: pa) rest

theorem mem_concatLists {a : Char} {ls : List (List Char)} :
    a ∈ concatLists ls → ∃ l ∈ ls, a ∈ l := by
  induction ls with
  | nil => intro h; simp [concatLists] at h
  | cons l ls ih =>
    intro h
    simp only [concatLists, List.foldr_cons] at h
    rcases List.mem_append.mp h with h1 | h2
    · exact ⟨l, List.mem_cons_self l ls, h1⟩
    · rcases ih h2 with ⟨l2, hl2, ha⟩
      exact ⟨l2, List.mem_cons_of_mem l hl2, ha⟩

theorem utf8Bytes_lt (c : Char) : ∀ b ∈ utf8Bytes c, b < 256 := by
  intro b hb
  have hc : c.toNat < 1114112 := by
    have hv := c.valid
    rcases hv with h1 | ⟨h2, h3⟩
    · have : c.val.toNat < 0xd800 := by exact_mod_cast h1
      change c.val.toNat < 1114112
      omega
    · have : c.val.toNat < 0x110000 := by exact_mod_cast h3
      exact this
  simp only [utf8Bytes] at hb
  by_cases h1 : c.toNat < 128
  · rw [if_pos h1] at hb
    simp only [List.mem_singleton] at hb
    omega
  · rw [if_neg h1] at hb
    by_cases h2 : c.toNat < 2048
    · rw [if_pos h2] at hb
      simp at hb
      rcases hb with hb | hb <;> omega
    · rw [if_neg h2] at hb
      by_cases h3 : c.toNat < 65536
      · rw [if_pos h3] at hb
        simp at hb
        rcases hb with hb | hb | hb <;> omega
      · rw [if_neg h3] at hb
        simp at hb
        rcases hb with hb | hb | hb | hb <;> omega

set_option maxRecDepth 4096 in
theorem qmark_not_mem_encodeByte : ∀ n, n < 256 → ¬ ('?' ∈ encodeByte n) := by decide

theorem qmark_not_mem_formEncodeL (cs : List Char) : ¬ ('?' ∈ formEncodeL cs) := by
  intro h
  rcases mem_concatLists h with ⟨l, hl, ha⟩
  rcases List.mem_map.mp hl with ⟨c, _, rfl⟩
  rcases mem_concatLists ha with ⟨l2, hl2, ha2⟩
  rcases List.mem_map.mp hl2 with ⟨b, hb, rfl⟩
  exact qmark_not_mem_encodeByte b (utf8Bytes_lt c b hb) ha2

theorem joinAmp_not_mem {a : Char} (ls : List (List Char))
    (h : ∀ l ∈ ls, ¬ (a ∈ l)) (hamp : a ≠ '&') : ¬ (a ∈ joinAmp ls) := by
  induction ls with
  | nil => intro hm; simp [joinAmp] at hm
  | cons l ls ih =>
    intro hm
    match ls, hm with
    | [], hm => exact h l (List.mem_cons_self l []) (by simpa [joinAmp] using hm)
    | l2 :: ls2, hm =>
      simp only [joinAmp] at hm
      rcases List.mem_append.mp hm with h1 | h2
      · exact h l (List.mem_cons_self l (l2 :: ls2)) h1
      · rcases List.mem_cons.mp h2 with h3 | h4
        · exact hamp h3
        · exact ih (fun l3 hl3 => h l3 (List.mem_cons_of_mem l hl3)) h4

theorem qmark_not_mem_paramsToStringL (ps : List (String × String)) :
    ¬ ('?' ∈ paramsToStringL ps) := by
  apply joinAmp_not_mem
  · intro l hl
    rcases List.mem_map.mp hl with ⟨kv, _, rfl⟩
    intro hm
    rcases List.mem_append.mp hm with h1 | h2
    · exact qmark_not_mem_formEncodeL kv.1.data h1
    · rcases List.mem_cons.mp h2 with h3 | h4
      · exact absurd h3 (by decide)
      · exact qmark_not_mem_formEncodeL kv.2.data h4
  · decide

theorem matchAliasL_of_clean (l1 l2 : List Char)
    (h : ∀ c ∈ l1, dotNoMatch c = false) :
    matchAliasL ('%' :: (l1 ++ '%' :: l2)) = some (l1, '%' :: (l1 ++ ['%'])) := by
  have hp : ∀ c ∈ l1, (fun c => !dotNoMatch c) c = true := by
    intro c hc; simp [h c hc]
  have htake : (l1 ++ '%' :: l2).takeWhile (fun c => !dotNoMatch c) = l1 := by
    rw [takeWhile_append_all _ l1 ('%' :: l2) hp]
    simp [List.takeWhile_cons, dotNoMatch]
  have hdrop : (l1 ++ '%' :: l2).dropWhile (fun c => !dotNoMatch c) = '%' :: l2 := by
    rw [dropWhile_append_all _ l1 ('%' :: l2) hp]
    simp [List.dropWhile_cons, dotNoMatch]
  simp only [matchAliasL, htake, hdrop]

/-! ## Helper lemmas on the deferred group model -/

theorem visStep_registry (s : DeferState) (v : Bool) :
    (visStep s v).registryHas = s.registryHas := by
  simp only [visStep]
  split
  · split <;> rfl
  · rfl

theorem visFold_registry (vis : List Bool) :
    ∀ s : DeferState, (vis.foldl visStep s).registryHas = s.registryHas := by
  induction vis with
  | nil => intro s; rfl
  | cons v tl ih => intro s; rw [List.foldl_cons, ih, visStep_registry]

theorem visStep_off (s : DeferState) (v : Bool) (h : s.listenerOn = false) :
    (visStep s v).listenerOn = false := by
  simp only [visStep]
  split
  · rfl
  · exact h

theorem visFold_off (vis : List Bool) :
    ∀ s : DeferState, s.listenerOn = false → (vis.foldl visStep s).listenerOn = false := by
  induction vis with
  | nil => intro s h; exact h
  | cons v tl ih => intro s h; rw [List.foldl_cons]; exact ih _ (visStep_off s v h)

theorem visFold_issued (vis : List Bool) :
    ∀ s : DeferState, s.registryHas = true →
      (vis.foldl visStep s).issued = s.issued + countVis vis := by
  induction vis with
  | nil => intro s _; simp [countVis]
  | cons v tl ih =>
    intro s h
    rw [List.foldl_cons]
    have hr : (visStep s v).registryHas = true := by rw [visStep_registry]; exact h
    rw [ih _ hr]
    by_cases hb : v = true
    · have h1 : (visStep s v).issued = s.issued + 1 := by simp [visStep, hb, h]
      rw [h1]
      simp [countVis, List.count_cons, hb]
      omega
    · have h1 : visStep s v = s := by
        simp only [visStep]
        rw [if_neg hb]
      rw [h1]
      simp [countVis, List.count_cons, hb]

theorem visFold_any_off (vis : List Bool) :
    ∀ s : DeferState, vis.any (fun b => b) = true →
      (vis.foldl visStep s).listenerOn = false := by
  induction vis with
  | nil => intro s h; simp at h
  | cons v tl ih =>
    intro s h
    rw [List.foldl_cons]
    by_cases hb : v = true
    · apply visFold_off
      simp [visStep, hb]
    · have h1 : visStep s v = s := by
        simp only [visStep]
        rw [if_neg hb]
      rw [h1]
      apply ih
      simp only [List.any_cons] at h
      rcases Bool.or_eq_true_iff.mp h with h2 | h2
      · exact absurd h2 hb
      · exact h2

theorem visFold_none (vis : List Bool) :
    ∀ s : DeferState, vis.any (fun b => b) = false → vis.foldl visStep s = s := by
  induction vis with
  | nil => intro s _; rfl
  | cons v tl ih =>
    intro s h
    simp only [List.any_cons, Bool.or_eq_false_iff] at h
    rw [List.foldl_cons]
    have h1 : visStep s v = s := by
      simp only [visStep]
      rw [if_neg (by simp [h.1])]
    rw [h1]
    exact ih s h.2

theorem dstep_off (s : DeferState) (e : DEvent) (h : s.listenerOn = false) :
    (dstep s e).listenerOn = false ∧ (dstep s e).issued = s.issued := by
  cases e with
  | tick vis => simp [dstep, h]
  | settle ev =>
    simp only [dstep]
    split
    · exact ⟨h, rfl⟩
    · cases ev with
      | success ik => cases ik <;> exact ⟨h, rfl⟩
      | failure => exact ⟨h, rfl⟩

theorem dfold_off (es : List DEvent) :
    ∀ s : DeferState, s.listenerOn = false →
      (es.foldl dstep s).listenerOn = false ∧ (es.foldl dstep s).issued = s.issued := by
  induction es with
  | nil => intro s h; exact ⟨h, rfl⟩
  | cons e tl ih =>
    intro s h
    rw [List.foldl_cons]
    rcases dstep_off s e h with ⟨h1, h2⟩
    rcases ih _ h1 with ⟨h3, h4⟩
    exact ⟨h3, by rw [h4, h2]⟩

theorem dstep_frozen (s : DeferState) (e : DEvent)
    (h1 : s.listenerOn = false) (h2 : s.pending = 0) : dstep s e = s := by
  cases e with
  | tick vis => simp [dstep, h1]
  | settle ev => simp [dstep, h2]

theorem dfold_frozen (es : List DEvent) (s : DeferState)
    (h1 : s.listenerOn = false) (h2 : s.pending = 0) : es.foldl dstep s = s := by
  induction es with
  | nil => rfl
  | cons e tl ih => rw [List.foldl_cons, dstep_frozen s e h1 h2]; exact ih

theorem dstep_tick_off (s : DeferState) (vis : List Bool) (h : s.listenerOn = false) :
    dstep s (DEvent.tick vis) = s := by
  simp [dstep, h]

/-! ## The claims -/

/-- C1: evaluation of the completion tracker at the failing input.  A run
with a single eager request whose load fails settles completely, yet the
counter stays at 1 and the completion callback never fires: the decrement
sits in the success handler only, so a failed settlement does not
decrement and the claimed exactly-once invocation of the callback after
all settlements does not happen. -/
theorem dynImports_failed_load_stalls_completion :
    (runEager 1 [Settlement.failure]).fires = 0 ∧
    (runEager 1 [Settlement.failure]).c = 1 := by decide

/-- C3: evaluation of the counter at the failing input.  With one eager
request, a successful settlement decrements the counter to 0 while a
failed settlement leaves it at 1, contradicting the claimed one decrement
per settled eager load regardless of outcome. -/
theorem dynImports_no_decrement_on_failure :
    (runEager 1 [Settlement.success InitKind.noInit]).c = 0 ∧
    (runEager 1 [Settlement.failure]).c = 1 := by decide

/-- C6: evaluation at the failing input: two eager loads, the first
succeeding with an init export that throws synchronously, the second
failing.  The throw is caught and logged and the settlement of the
throwing module is counted (the counter drops from 2 to 1), but the completion
callback never fires even though both sibling loads have settled, because
the failed sibling does not decrement the counter. -/
theorem dynImports_init_throw_sibling_failure :
    runEager 2 [Settlement.success InitKind.initThrows, Settlement.failure]
      = { c := 1, fires := 0, initsRun := 1, errorsLogged := 2 } := by decide

/-- C2 (counterexample): two elements of one deferred group are visible in
the same docShift tick; each one issues a load, and the key is still in
the deferred registry when the tick ends, refuting both the at-most-one
load claim and the claim that the key is removed before the load
settles. -/
theorem watchModules_double_load_same_tick :
    (drun [DEvent.tick [true, true]]).issued = 2 ∧
    (drun [DEvent.tick [true, true]]).registryHas = true := by decide

/-- C4 (counterexample): a deferred load is issued for a visible element
and then fails; at the time of the failure the key is still in the
deferred registry, because the deletion sits in the success handler and
the failure path never removes the key. -/
theorem watchModules_key_not_removed_on_failure :
    (drun [DEvent.tick [true], DEvent.settle Settlement.failure]).registryHas = true := by
  decide

/-- C5 (counterexample): resolving a key that already carries a query
component, with a nonce configured and no debug flag, appends the new
parameters after a second question mark instead of merging them into the
existing query string: the key contains one question mark and the result
contains two. -/
theorem rewritePath_second_question_mark :
    rewritePath cfgNonce "./a.mjs?x=1" = "./../a.mjs?x=1?nonce=N" ∧
    "./a.mjs?x=1".data.count '?' = 1 ∧
    (rewritePath cfgNonce "./a.mjs?x=1").data.count '?' = 2 := by decide

/-- C5 (amended): the resolver is a pure function of the key and its
configuration and never mutates the key; it always returns a new string
made of the rewritten key followed by a question mark and the freshly
computed parameters.  Pre-existing query components are kept verbatim but
never merged: the serialized parameters contain no question mark, so the
result has exactly one more question mark than the rewritten key. -/
theorem rewritePath_appends_query_after_new_mark (cfg : ImportConfig) (uri : String) :
    (rewritePath cfg uri).data.count '?' = (rewrittenUri cfg uri).data.count '?' + 1 := by
  show ((rewrittenUri cfg uri).data ++ '?' :: paramsToStringL (rewriteParams cfg uri)).count '?'
      = (rewrittenUri cfg uri).data.count '?' + 1
  have h0 : (paramsToStringL (rewriteParams cfg uri)).count '?' = 0 :=
    List.count_eq_zero.mpr (qmark_not_mem_paramsToStringL _)
  simp [List.count_append, List.count_cons, h0]

/-- C2 (amended): over every event trace of a deferred group, the number
of loads issued for the key equals the number of visible elements of the
first tick that reports any visible element.  Within that single tick
each visible element issues its own load, because the key is removed from
the registry only when a load settles successfully, which is after the
tick; no later tick issues anything because the handler is unsubscribed
during that first tick. -/
theorem watchModules_issued_eq_first_visible_tick (es : List DEvent) :
    (drun es).issued = firstVisCount es := by
  induction es with
  | nil => rfl
  | cons e rest ih =>
    cases e with
    | tick vis =>
      have hl : dInit.listenerOn = true := rfl
      cases hany : vis.any (fun b => b) with
      | true =>
        have hstep : dstep dInit (DEvent.tick vis) = vis.foldl visStep dInit := by
          simp [dstep, hl]
        have hoff : (vis.foldl visStep dInit).listenerOn = false :=
          visFold_any_off vis dInit hany
        have hiss : (vis.foldl visStep dInit).issued = countVis vis := by
          have h1 := visFold_issued vis dInit rfl
          simpa [dInit] using h1
        simp only [drun, List.foldl_cons, hstep, firstVisCount, hany, if_true]
        rw [(dfold_off rest _ hoff).2, hiss]
      | false =>
        have h0 : vis.foldl visStep dInit = dInit := visFold_none vis dInit hany
        have hid : dstep dInit (DEvent.tick vis) = dInit := by
          simp [dstep, hl, h0]
        simp only [drun, List.foldl_cons, hid, firstVisCount, hany]
        simp only [Bool.false_eq_true, if_false]
        exact ih
    | settle ev =>
      have hid : dstep dInit (DEvent.settle ev) = dInit := by
        have hp : dInit.pending = 0 := rfl
        simp [dstep, hp]
      simp only [drun, List.foldl_cons, hid, firstVisCount]
      exact ih

/-- C4 (amended): after a deferred load is issued for a visible element
and fails, the key is still in the deferred registry (it is removed only
by the success handler), and nevertheless the failed load is never
reattempted: whatever events follow, the total number of loads issued for
the key stays 1, because the docShift handler was unsubscribed when the
element became visible. -/
theorem watchModules_failed_load_never_reattempted (es : List DEvent) :
    (drun (DEvent.tick [true] :: DEvent.settle Settlement.failure :: es)).issued = 1 ∧
    (drun (DEvent.tick [true] :: DEvent.settle Settlement.failure :: es)).registryHas
      = true := by
  have hs : dstep (dstep dInit (DEvent.tick [true])) (DEvent.settle Settlement.failure)
      = { registryHas := true, listenerOn := false, issued := 1, pending := 0,
          initsRun := 0, errorsLogged := 1 } := by decide
  have hrun : drun (DEvent.tick [true] :: DEvent.settle Settlement.failure :: es)
      = { registryHas := true, listenerOn := false, issued := 1, pending := 0,
          initsRun := 0, errorsLogged := 1 } := by
    show (DEvent.tick [true] :: DEvent.settle Settlement.failure :: es).foldl dstep dInit = _
    rw [List.foldl_cons, List.foldl_cons, hs]
    exact dfold_frozen es _ rfl rfl
  rw [hrun]
  exact ⟨rfl, rfl⟩

/-- C7: the docShift handler of a deferred group is unsubscribed during
the first tick in which any member element is visible, unconditionally
and independently of any load outcome: after that tick, whatever events
follow, the subscription is off and a further tick leaves the group state
entirely unchanged, so the handler never fires again for the key. -/
theorem watchModules_unsubscribed_after_first_visible_tick
    (es1 : List DEvent) (vis : List Bool) (es2 : List DEvent) (vis2 : List Bool)
    (h : vis.any (fun b => b) = true) :
    (drun (es1 ++ DEvent.tick vis :: es2)).listenerOn = false ∧
    dstep (drun (es1 ++ DEvent.tick vis :: es2)) (DEvent.tick vis2)
      = drun (es1 ++ DEvent.tick vis :: es2) := by
  have hoff : (drun (es1 ++ DEvent.tick vis :: es2)).listenerOn = false := by
    show ((es1 ++ DEvent.tick vis :: es2).foldl dstep dInit).listenerOn = false
    rw [List.foldl_append, List.foldl_cons]
    have h1 : (dstep (es1.foldl dstep dInit) (DEvent.tick vis)).listenerOn = false := by
      by_cases hl : (es1.foldl dstep dInit).listenerOn = true
      · have h2 : dstep (es1.foldl dstep dInit) (DEvent.tick vis)
            = vis.foldl visStep (es1.foldl dstep dInit) := by
          simp [dstep, hl]
        rw [h2]
        exact visFold_any_off vis _ h
      · have hl2 : (es1.foldl dstep dInit).listenerOn = false :=
          Bool.not_eq_true _ ▸ Bool.eq_false_iff.mpr (fun hx => hl hx)
        exact (dstep_off _ _ hl2).1
    exact (dfold_off es2 _ h1).1
  exact ⟨hoff, dstep_tick_off _ vis2 hoff⟩

/-- C7 (witness): the theorem applied to the trace of a single tick with
one visible element. -/
theorem watchModules_unsubscribed_witness :
    [true].any (fun b => b) = true ∧
    ((drun ([] ++ DEvent.tick [true] :: [])).listenerOn = false ∧
     dstep (drun ([] ++ DEvent.tick [true] :: [])) (DEvent.tick [true])
       = drun ([] ++ DEvent.tick [true] :: [])) :=
  ⟨rfl, watchModules_unsubscribed_after_first_visible_tick [] [true] [] [true] rfl⟩

/-- C8: alias substitution.  For every configuration, alias name (free of
percent signs and line terminators), registered non-empty location and
remaining path, resolving a key that begins with the delimited alias token
replaces the token and its trailing separator by the registered location:
the result is the registered location followed by the rest of the key, a
question mark and the query string. -/
theorem rewritePath_alias_substitution (cfg : ImportConfig) (nm p rest : String)
    (hnm : ∀ c ∈ nm.data, dotNoMatch c = false)
    (hreg : List.lookup nm cfg.dynImportPaths = some p)
    (hp : ¬ p = "") :
    ∃ q : List Char,
      (rewritePath cfg ("%" ++ nm ++ "%/" ++ rest)).data
        = (p ++ rest).data ++ '?' :: q := by
  have e1 : ("%/" : String).data = ['%', '/'] := rfl
  have e2 : ("%" : String).data = ['%'] := rfl
  have hdata : ("%" ++ nm ++ "%/" ++ rest).data
      = '%' :: (nm.data ++ '%' :: '/' :: rest.data) := by
    simp [strData_append, e1, e2, List.append_assoc]
  have hmatch : matchAliasL ("%" ++ nm ++ "%/" ++ rest).data
      = some (nm.data, '%' :: (nm.data ++ ['%'])) := by
    rw [hdata]
    exact matchAliasL_of_clean nm.data ('/' :: rest.data) hnm
  have hmatch2 : matchAlias ("%" ++ nm ++ "%/" ++ rest)
      = some (nm, ⟨'%' :: (nm.data ++ ['%'])⟩) := by
    unfold matchAlias
    rw [hmatch]
  have hhit : aliasHit cfg ("%" ++ nm ++ "%/" ++ rest)
      = some (⟨'%' :: (nm.data ++ ['%'])⟩, p) := by
    simp only [aliasHit, hmatch2, hreg]
    rw [if_neg hp]
  refine ⟨paramsToStringL (rewriteParams cfg ("%" ++ nm ++ "%/" ++ rest)), ?_⟩
  show (rewrittenUri cfg ("%" ++ nm ++ "%/" ++ rest)).data
        ++ '?' :: paramsToStringL (rewriteParams cfg ("%" ++ nm ++ "%/" ++ rest))
      = (p ++ rest).data ++ '?' :: paramsToStringL (rewriteParams cfg ("%" ++ nm ++ "%/" ++ rest))
  congr 1
  simp only [rewrittenUri, hhit]
  show replaceFirstL ("%" ++ nm ++ "%/" ++ rest).data
      ((⟨'%' :: (nm.data ++ ['%'])⟩ : String) ++ "/").data p.data = (p ++ rest).data
  have hpat : ((⟨'%' :: (nm.data ++ ['%'])⟩ : String) ++ "/").data
      = '%' :: (nm.data ++ ['%', '/']) := by
    rw [strData_append]
    show ('%' :: (nm.data ++ ['%'])) ++ ['/'] = '%' :: (nm.data ++ ['%', '/'])
    simp [List.append_assoc]
  have hsplit : ("%" ++ nm ++ "%/" ++ rest).data
      = ('%' :: (nm.data ++ ['%', '/'])) ++ rest.data := by
    rw [hdata]
    simp [List.append_assoc]
  rw [hpat, hsplit, replaceFirstL_of_prefixPat _ _ _ (by simp), strData_append]

/-- C8 (witness): the theorem at the example of the specification:
resolving "%assets%/foo.mjs" with assets registered to the example
location yields that location followed by foo.mjs and the query string. -/
theorem rewritePath_alias_substitution_witness :
    (∀ c ∈ ("assets" : String).data, dotNoMatch c = false) ∧
    ∃ q : List Char,
      (rewritePath cfgExample ("%" ++ "assets" ++ "%/" ++ "foo.mjs")).data
        = ("https://example.com/modules/" ++ "foo.mjs").data ++ '?' :: q :=
  ⟨by decide,
   rewritePath_alias_substitution cfgExample "assets" "https://example.com/modules/"
     "foo.mjs" (by decide) (by decide) (by decide)⟩

/-- C9: the resolver always appends a question mark after the rewritten
path, so every result contains one; and when the key is aliased and the
debug flag is absent, no parameters are appended at all and the result is
exactly the rewritten path followed by a bare trailing question mark. -/
theorem rewritePath_trailing_question_mark (cfg : ImportConfig) (uri : String) :
    '?' ∈ (rewritePath cfg uri).data ∧
    ((aliasHit cfg uri).isSome = true → hasDebug cfg = false →
      (rewritePath cfg uri).data = (rewrittenUri cfg uri).data ++ ['?']) := by
  constructor
  · show '?' ∈ (rewrittenUri cfg uri).data ++ '?' :: paramsToStringL (rewriteParams cfg uri)
    exact List.mem_append.mpr (Or.inr (List.mem_cons_self _ _))
  · intro h1 h2
    rcases Option.isSome_iff_exists.mp h1 with ⟨x, hx⟩
    have hps : rewriteParams cfg uri = [] := by
      simp only [rewriteParams, hx, h2, List.nil_append]
      simp
    show (rewrittenUri cfg uri).data ++ '?' :: paramsToStringL (rewriteParams cfg uri)
        = (rewrittenUri cfg uri).data ++ ['?']
    rw [hps]
    rfl

/-- C9 (witness): the theorem at an aliased key with no nonce configured
and no debug flag present. -/
theorem rewritePath_trailing_question_mark_witness :
    '?' ∈ (rewritePath cfgPlain "%assets%/foo.mjs").data ∧
    (rewritePath cfgPlain "%assets%/foo.mjs").data
      = (rewrittenUri cfgPlain "%assets%/foo.mjs").data ++ ['?'] :=
  ⟨(rewritePath_trailing_question_mark cfgPlain "%assets%/foo.mjs").1,
   (rewritePath_trailing_question_mark cfgPlain "%assets%/foo.mjs").2
     (by decide) (by decide)⟩

/-- A nonce pair never sits in the debug part of the parameter list. -/
theorem nonce_not_mem_debugPart (cfg : ImportConfig) (n : String) :
    ("nonce", n) ∈
        (if hasDebug cfg then [("debug", "true"), ("random", cfg.randomUUID)]
         else ([] : List (String × String))) → False := by
  intro h
  by_cases hd : hasDebug cfg = true
  · rw [if_pos hd] at h
    rcases List.mem_cons.mp h with h2 | h2
    · have h4 : ("nonce" : String) = "debug" := congrArg Prod.fst h2
      exact absurd h4 (by decide)
    · rcases List.mem_cons.mp h2 with h3 | h3
      · have h4 : ("nonce" : String) = "random" := congrArg Prod.fst h3
        exact absurd h4 (by decide)
      · simp at h3
  · rw [if_neg hd] at h
    simp at h

/-- C10: a key on the alias branch never receives a nonce parameter, even
when a site nonce is configured: every parameter appended for such a key
has a key other than nonce; conversely a nonce pair appears among the
appended parameters only on the non-alias branch and only with the
configured nonce value. -/
theorem rewritePath_alias_branch_no_nonce (cfg : ImportConfig) (uri : String) :
    ((aliasHit cfg uri).isSome = true →
      ∀ kv ∈ rewriteParams cfg uri, ¬ kv.1 = "nonce") ∧
    (∀ n : String, ("nonce", n) ∈ rewriteParams cfg uri →
      aliasHit cfg uri = none ∧ cfg.siteNonce = some n) := by
  constructor
  · intro h1 kv hkv
    rcases Option.isSome_iff_exists.mp h1 with ⟨x, hx⟩
    simp only [rewriteParams, hx, List.nil_append] at hkv
    rcases kv with ⟨a, b⟩
    intro hEq
    simp only at hEq
    subst hEq
    exact nonce_not_mem_debugPart cfg b hkv
  · intro n hn
    cases hx : aliasHit cfg uri with
    | some x =>
      simp only [rewriteParams, hx, List.nil_append] at hn
      exact absurd hn (fun h => nonce_not_mem_debugPart cfg n h)
    | none =>
      refine ⟨rfl, ?_⟩
      simp only [rewriteParams, hx] at hn
      cases hnon : cfg.siteNonce with
      | some m =>
        simp only [hnon] at hn
        rcases List.mem_append.mp hn with h2 | h2
        · rcases List.mem_cons.mp h2 with h3 | h3
          · have h4 : n = m := congrArg Prod.snd h3
            rw [h4]
          · simp at h3
        · exact absurd h2 (fun h => nonce_not_mem_debugPart cfg n h)
      | none =>
        simp only [hnon, List.nil_append] at hn
        exact absurd hn (fun h => nonce_not_mem_debugPart cfg n h)

/-- C10 (witness): the theorem at an aliased key with a configured nonce
and the debug flag present: no appended parameter is a nonce. -/
theorem rewritePath_alias_branch_no_nonce_witness :
    (aliasHit cfgNonceDebug "%assets%/foo.mjs").isSome = true ∧
    (∀ kv ∈ rewriteParams cfgNonceDebug "%assets%/foo.mjs", ¬ kv.1 = "nonce") :=
  ⟨by decide,
   (rewritePath_alias_branch_no_nonce cfgNonceDebug "%assets%/foo.mjs").1 (by decide)⟩

end DynImports
